import Mathlib

/-!
Verification of the go-decimal arbitrary-precision decimal library.

A `Decimal` mirrors the Go struct: a lazily initialized arbitrary-precision
significand (`Option ℤ` models the possibly-nil `*big.Int`) together with a
signed power-of-ten exponent.  All operations below are shallow embeddings of
the corresponding Go functions in `decimal.go`; `big.Int` operations are
modelled by `ℤ` (with Go's truncated division `QuoRem` as `Int.tdiv`/`Int.tmod`
and `big.Int.String`/`SetString` as explicit base-10 digit-string conversions).
Functions that can raise a runtime panic in Go return `Option`, with `none`
marking exactly the panicking executions.
-/

set_option maxRecDepth 10000

/-- The Go struct `Decimal`: significand (`nil` allowed, meaning lazily `0`)
and exponent.  Value denoted: `integer * 10 ^ exponent`. -/
structure Decimal where
  integer : Option ℤ
  exponent : ℤ
deriving DecidableEq, Repr

/-- Go `ensureInitialized`: replace a nil significand by zero. -/
def ensureInitialized (d : Decimal) : Decimal :=
  ⟨some (d.integer.getD 0), d.exponent⟩

/-- The significand as read by the Go code after `ensureInitialized`. -/
def intOf (d : Decimal) : ℤ :=
  d.integer.getD 0

/-- The numeric value denoted by a decimal, as a rational. -/
def val (d : Decimal) : ℚ :=
  (intOf d : ℚ) * (10 : ℚ) ^ d.exponent

/-- Digit character for a value `0..9` (model of Go digit printing). -/
def digitChar (m : ℕ) : Char :=
  match m with
  | 0 => '0' | 1 => '1' | 2 => '2' | 3 => '3' | 4 => '4'
  | 5 => '5' | 6 => '6' | 7 => '7' | 8 => '8' | _ => '9'

/-- Numeric value of a digit character. -/
def charToDigit (c : Char) : ℕ :=
  c.toNat - 48

/-- Base-10 value of a digit string (model of `big.Int.SetString` on digits). -/
def digitsToNat (s : List Char) : ℕ :=
  s.foldl (fun a c => 10 * a + charToDigit c) 0

/-- Fuelled base-10 printer for naturals; fuel `n+1` always suffices. -/
def natStrF : ℕ → ℕ → List Char
  | 0, _ => []
  | fuel + 1, n =>
    if n < 10 then [digitChar n]
    else natStrF fuel (n / 10) ++ [digitChar (n % 10)]

/-- Base-10 digit string of a natural (model of `big.Int.String` on `ℕ`). -/
def natStr (n : ℕ) : List Char :=
  natStrF (n + 1) n

/-- Model of `big.Int.String`: optional minus sign before the digits. -/
def intStr (n : ℤ) : List Char :=
  if n < 0 then '-' :: natStr n.natAbs else natStr n.natAbs

/-- Model of `big.Int.SetString`/`strconv.ParseInt` on a sign-and-digit
string already known to be well formed (optional leading `+`/`-`). -/
def strToInt (s : List Char) : ℤ :=
  match s with
  | [] => 0
  | c :: t =>
    if c = '-' then -(digitsToNat t : ℤ)
    else if c = '+' then (digitsToNat t : ℤ)
    else (digitsToNat (c :: t) : ℤ)

/-- Go `strings.TrimRight(s, "0")`. -/
def trimRightZeros (s : List Char) : List Char :=
  (s.reverse.dropWhile (fun c => c = '0')).reverse

/-- Split an optional leading sign character from a string (the `[-+]?`
prefix of the decimal regex). -/
def signSplit (s : List Char) : List Char × List Char :=
  match s with
  | c :: t => if c = '+' ∨ c = '-' then ([c], t) else ([], s)
  | [] => ([], [])

/-- Matcher for the exponent tail `([eE]([-+]?\d+))?$` of the decimal
pattern, given the already-matched groups 1 and 3. -/
def matchExp (m1 m3 rest : List Char) : Option (List Char × List Char × List Char) :=
  let sp := signSplit rest
  let eds := sp.2.takeWhile Char.isDigit
  let tail := sp.2.dropWhile Char.isDigit
  if eds = [] ∨ tail ≠ [] then none
  else some (m1, m3, sp.1 ++ eds)

/-- Model of matching `^([-+]?\d+)(\.(\d+))?([eE]([-+]?\d+))?$`; returns the
capture groups 1 (signed integer digits), 3 (fraction digits) and
5 (signed exponent digits), the latter two empty if absent. -/
def matchDecimal (s : List Char) : Option (List Char × List Char × List Char) :=
  let sp := signSplit s
  let ds := sp.2.takeWhile Char.isDigit
  let rest := sp.2.dropWhile Char.isDigit
  if ds = [] then none
  else
    match rest with
    | [] => some (sp.1 ++ ds, [], [])
    | '.' :: t =>
      let fs := t.takeWhile Char.isDigit
      let t2 := t.dropWhile Char.isDigit
      if fs = [] then none
      else
        match t2 with
        | [] => some (sp.1 ++ ds, fs, [])
        | c2 :: t3 => if c2 = 'e' ∨ c2 = 'E' then matchExp (sp.1 ++ ds) fs t3 else none
    | c2 :: t3 => if c2 = 'e' ∨ c2 = 'E' then matchExp (sp.1 ++ ds) [] t3 else none

/-- Go `(*Decimal).SetString`: returns the receiver's new state and the
success flag.  On failure the receiver is only touched by
`ensureInitialized` (the Go code returns before writing any field). -/
def setString (x : Decimal) (y : String) : Decimal × Bool :=
  let x1 := ensureInitialized x
  match matchDecimal y.data with
  | none => (x1, false)
  | some (m1, m3, m5) =>
    let decimals := trimRightZeros m3
    let integer := m1 ++ decimals
    let exponent : ℤ := -(decimals.length : ℤ) + (if m5 = [] then 0 else strToInt m5)
    (⟨some (strToInt integer), exponent⟩, true)

/-- Go `Parse`: a fresh decimal on success, `none` standing for the error. -/
def parse (s : String) : Option Decimal :=
  let r := setString ⟨none, 0⟩ s
  if r.2 then some r.1 else none

/-- Go `(*Decimal).SetFloat64` given the already-formatted text of the float
(Go formats with `strconv.FormatFloat(y, 'f', -1, 64)` and discards the
parse result). -/
def setFloat64Str (x : Decimal) (s : String) : Decimal :=
  (setString x s).1

/-- Go `New` given the formatted text of its float argument. -/
def newFromFloatStr (s : String) : Decimal :=
  setFloat64Str ⟨none, 0⟩ s

/-- Go `align`: the operand with the larger exponent has its significand
multiplied by `10^diff` where `diff = abs(abs(x.exponent) - abs(y.exponent))`
(exactly the Go expression), and adopts the other operand's exponent. -/
def align (x y : Decimal) : Decimal × Decimal :=
  if x.exponent ≠ y.exponent then
    let diff := ((x.exponent.natAbs : ℤ) - (y.exponent.natAbs : ℤ)).natAbs
    if y.exponent < x.exponent then
      (⟨some (intOf x * 10 ^ diff), y.exponent⟩, y)
    else
      (x, ⟨some (intOf y * 10 ^ diff), x.exponent⟩)
  else (x, y)

/-- Model of `big.Int.Cmp`: `-1`, `0` or `+1`. -/
def intCmp (a b : ℤ) : ℤ :=
  if a < b then -1 else if b < a then 1 else 0

/-- Go `(*Decimal).Cmp`: align, then compare significands. -/
def Decimal.cmp (x y : Decimal) : ℤ :=
  let p := align (ensureInitialized x) (ensureInitialized y)
  intCmp (intOf p.1) (intOf p.2)

/-- Go `(*Decimal).Add`: align, then add significands. -/
def add (x y : Decimal) : Decimal :=
  let p := align (ensureInitialized x) (ensureInitialized y)
  ⟨some (intOf p.1 + intOf p.2), p.1.exponent⟩

/-- Go `(*Decimal).Mul`: zero argument gives exact zero; otherwise multiply
significands and add exponents.  (Only the argument `y` is tested for
zero, exactly as in the Go code.) -/
def mul (x y : Decimal) : Decimal :=
  let x1 := ensureInitialized x
  let y1 := ensureInitialized y
  if intOf y1 = 0 then ⟨some 0, 0⟩
  else ⟨some (intOf x1 * intOf y1), x1.exponent + y1.exponent⟩

/-- One pass of the long-division loop of Go `Quo`, with explicit fuel.
State: divisor magnitude `ya`, remainder `r`, running exponent `exp`,
digit ceiling `M`.  Returns appended digit characters, final exponent and
final remainder.  The Go loop guard is `r != 0 && exp*-1 < M`. -/
def quoLoopF : ℕ → ℕ → ℕ → ℤ → ℕ → List Char × ℤ × ℕ
  | 0, _, r, exp, _ => ([], exp, r)
  | fuel + 1, ya, r, exp, M =>
    if r ≠ 0 ∧ -exp < (M : ℤ) then
      let r10 := r * 10
      let st := quoLoopF fuel ya (r10 % ya) (exp - 1) M
      (natStr (r10 / ya) ++ st.1, st.2)
    else ([], exp, r)

/-- The Go long-division loop; fuel `(M + exp).toNat` is exactly enough
(each iteration decrements `exp` and the guard needs `-exp < M`). -/
def quoLoop (ya r : ℕ) (exp : ℤ) (M : ℕ) : List Char × ℤ × ℕ :=
  quoLoopF ((M : ℤ) + exp).toNat ya r exp M

/-- Go `(*Decimal).Quo` with the process-wide `MaxDecimalDigits` passed
explicitly as `M` (Go default: `200`).  Division by a zero significand
yields exact zero; an exact significand division divides significands and
subtracts exponents; otherwise base-10 long division runs on absolute
values and the assembled `digits e exponent` string is re-parsed. -/
def quo (x0 y0 : Decimal) (M : ℕ) : Decimal :=
  let x := ensureInitialized x0
  let y := ensureInitialized y0
  let xi := intOf x
  let yi := intOf y
  if yi = 0 then ⟨some 0, 0⟩
  else if Int.tmod xi yi = 0 then ⟨some (Int.tdiv xi yi), x.exponent - y.exponent⟩
  else
    let sgn : List Char := if Int.sign xi * Int.sign yi = -1 then ['-'] else []
    let xa := xi.natAbs
    let ya := yi.natAbs
    let exp0 := x.exponent - y.exponent
    let st := quoLoop ya (xa % ya) exp0 M
    let str := sgn ++ ((natStr (xa / ya) ++ st.1) ++ 'e' :: intStr st.2.1)
    (setString x (String.mk str)).1

/-- Go `(*Decimal).Div` is the same as `Quo`. -/
def div (x0 y0 : Decimal) (M : ℕ) : Decimal :=
  quo x0 y0 M

/-- Go default of the global `MaxDecimalDigits`. -/
def maxDecimalDigitsDefault : ℕ := 200

/-- The odd digit characters tested by the tie branch of Go
`RoundToNearestEven`. -/
def oddDigits : List Char := ['1', '3', '5', '7', '9']

/-- Model of `big.Int.SetString(s, 10)`: `none` exactly when the string is
not an optional sign followed by at least one digit (Go returns `nil`). -/
def bigIntSetString (s : List Char) : Option ℤ :=
  let sp := signSplit s
  if sp.2 ≠ [] ∧ sp.2.all Char.isDigit then
    some (if sp.1 = ['-'] then -(digitsToNat sp.2 : ℤ) else (digitsToNat sp.2 : ℤ))
  else none

/-- Go `(*Decimal).RoundToNearestEven`.  `none` models the two runtime
panics the Go code can hit: the slice `part1[len(part1)-1:]` on an empty
`part1`, and `z.Add` on the nil result of `big.Int.SetString` of an empty
digit string. -/
def roundToNearestEven (d0 : Decimal) (precision : ℕ) : Option Decimal :=
  let d := ensureInitialized d0
  let i := intOf d
  let prec : ℤ := (precision : ℤ)
  if i = 0 ∨ 0 < d.exponent ∨ -d.exponent ≤ prec then some d
  else
    let sgn : List Char := if i < 0 then ['-'] else []
    let s0 := natStr i.natAbs
    let str :=
      if (s0.length : ℤ) < -d.exponent then
        List.replicate ((-d.exponent) - (s0.length : ℤ) + 1).toNat '0' ++ s0
      else s0
    let part1 := str.take ((str.length : ℤ) + d.exponent).toNat
    let part2 := str.drop part1.length
    let up? : Option Bool :=
      match part2.drop precision with
      | [] => none
      | c :: restAfter =>
        if c = '6' ∨ c = '7' ∨ c = '8' ∨ c = '9' then some true
        else if c = '5' then
          if restAfter ≠ [] then some true
          else if precision = 0 then
            match part1.getLast? with
            | none => none
            | some nb => some (nb ∈ oddDigits)
          else some (part2.getD (precision - 1) '0' ∈ oddDigits)
        else some false
    match up? with
    | none => none
    | some up =>
      match bigIntSetString (sgn ++ part1 ++ part2.take precision) with
      | none => if up then none else some ⟨none, -prec⟩
      | some z => some ⟨some (if up then z + Int.sign i else z), -prec⟩

/-- Go `(*Decimal).String`. -/
def decimalString (d : Decimal) : List Char :=
  let i := intOf d
  if i = 0 then ['0']
  else
    let sgn : List Char := if i < 0 then ['-'] else []
    let s := natStr i.natAbs
    if d.exponent = 0 then sgn ++ s
    else if 0 < d.exponent then sgn ++ s ++ List.replicate d.exponent.toNat '0'
    else
      let p : ℤ := (s.length : ℤ) + d.exponent
      if p ≤ 0 then sgn ++ '0' :: '.' :: (List.replicate (-p).toNat '0' ++ trimRightZeros s)
      else
        let decs := trimRightZeros (s.drop p.toNat)
        sgn ++ s.take p.toNat ++ (if decs = [] then [] else '.' :: decs)

/-- Decides that a character is not the decimal point. -/
def notDot (c : Char) : Bool :=
  c ≠ '.'

/-- Number of digits printed after the decimal point by `String()`. -/
def fracDigitCount (d : Decimal) : ℕ :=
  let t := (decimalString d).dropWhile notDot
  if t = [] then 0 else t.length - 1

/-! ### Helper lemmas and concrete strings -/

def strHalf : String := "0.5"
def strTen : String := "1e1"
def strTenth : String := "0.1"
def strAbc : String := "abc"
def strTwoDots : String := "12.3.4"
def strNaN : String := "NaN"
def strPlusInf : String := "+Inf"
def strNegInf : String := "-Inf"

lemma intOf_ensureInitialized (d : Decimal) : intOf (ensureInitialized d) = intOf d := rfl

lemma exponent_ensureInitialized (d : Decimal) : (ensureInitialized d).exponent = d.exponent := rfl

lemma setString_of_nomatch (x : Decimal) (s : String) (h : matchDecimal s.data = none) :
    setString x s = (ensureInitialized x, false) := by
  simp [setString, h]

/-! ### C1: `align` does not preserve numeric values -/

/-- C1: the claim states that `align` multiplies the significand of the
larger-exponent operand by `10^|x.exponent - y.exponent|` and preserves both
numeric values.  The code instead multiplies by
`10^|(|x.exponent| - |y.exponent|)|`; at `x = (1, 1)` (ten) and
`y = (1, -1)` (one tenth) the multiplier is `10^0`, so `x` becomes `(1, -1)`
and its numeric value changes from `10` to `1/10`. -/
theorem c1_align_changes_value :
    align ⟨some 1, 1⟩ ⟨some 1, -1⟩ = (⟨some 1, -1⟩, ⟨some 1, -1⟩) ∧
    val ⟨some 1, -1⟩ ≠ val ⟨some 1, 1⟩ := by
  refine ⟨by decide, ?_⟩
  simp only [val, intOf, Option.getD_some, Int.cast_one, one_mul]
  norm_num

/-! ### C2: `Cmp` misreports the order of mixed-exponent-sign operands -/

/-- C2: the claim states `Cmp` returns the sign of the numeric comparison for
every pair of decimals.  The parseable decimals `1e1 = 10` and `0.1` have
mixed-sign exponents, the broken alignment multiplies by `10^0`, and `Cmp`
returns `0` although `10 > 0.1`. -/
theorem c2_cmp_misreports_order :
    parse strTen = some ⟨some 1, 1⟩ ∧ parse strTenth = some ⟨some 1, -1⟩ ∧
    Decimal.cmp ⟨some 1, 1⟩ ⟨some 1, -1⟩ = 0 ∧
    val ⟨some 1, -1⟩ < val ⟨some 1, 1⟩ := by
  refine ⟨by decide, by decide, by decide, ?_⟩
  simp only [val, intOf, Option.getD_some, Int.cast_one, one_mul]
  norm_num

/-! ### C3: `Mul` only tests its argument for zero, not the receiver -/

/-- C3 counterexample: the claim states that a zero significand on either
operand yields exact zero with exponent `0`; but for `x = (0, 1)` and
`y = (3, 2)` the code takes the multiply branch and returns `(0, 3)`. -/
theorem c3_counterexample :
    intOf ⟨some 0, 1⟩ = 0 ∧ mul ⟨some 0, 1⟩ ⟨some 3, 2⟩ = ⟨some 0, 3⟩ ∧
    (⟨some 0, 3⟩ : Decimal) ≠ ⟨some 0, 0⟩ := by
  decide

/-- C3 amended: only a zero significand of the *argument* `y` produces the
exact zero with exponent `0`; otherwise (including a zero receiver) the
result significand is the product and the exponent the sum. -/
theorem c3_mul_amended (x y : Decimal) :
    (intOf y = 0 → mul x y = ⟨some 0, 0⟩) ∧
    (intOf y ≠ 0 → mul x y = ⟨some (intOf x * intOf y), x.exponent + y.exponent⟩) := by
  constructor
  · intro h
    have h2 : y.integer.getD 0 = 0 := h
    simp [mul, intOf, ensureInitialized, h2]
  · intro h
    have h2 : ¬y.integer.getD 0 = 0 := h
    simp [mul, intOf, ensureInitialized, h2]

/-- Witness for the amended C3 theorem at a concrete input. -/
theorem c3_mul_amended_witness : mul ⟨some 2, 1⟩ ⟨some 3, 2⟩ = ⟨some 6, 3⟩ := by
  have h := (c3_mul_amended ⟨some 2, 1⟩ ⟨some 3, 2⟩).2 (by decide)
  exact h.trans (by decide)

/-! ### C4: the tie branch rounds up on `5` followed by a zero digit -/

/-- C4: the claim states a first discarded digit of `5` rounds up only when a
*nonzero* digit follows, and otherwise ties go to even.  The decimal
`(250, -2)` (numerically `2.5`, reachable as `2.49 + 0.01`) has first
discarded digit `5` followed only by `0`, yet the code rounds up to `3`
(the claim and ties-to-even require `2`). -/
theorem c4_round_ties_away_on_trailing_zero :
    add ⟨some 249, -2⟩ ⟨some 1, -2⟩ = ⟨some 250, -2⟩ ∧
    val ⟨some 250, -2⟩ = 5 / 2 ∧
    roundToNearestEven ⟨some 250, -2⟩ 0 = some ⟨some 3, 0⟩ := by
  refine ⟨by decide, ?_, by decide⟩
  simp only [val, intOf, Option.getD_some]
  norm_num [zpow_neg]

/-! ### C5: `RoundToNearestEven` panics on `0.5` at precision `0` -/

/-- C5: the claim states no operation besides `MustParse` can fault.  But
`Parse("0.5")` gives `(5, -1)` and rounding it at precision `0` reaches the
slice `part1[len(part1)-1:]` with empty `part1`, a runtime panic (modelled
by `none`); malformed strings do fail without panicking, as the claim says. -/
theorem c5_round_panics_on_half :
    parse strHalf = some ⟨some 5, -1⟩ ∧
    roundToNearestEven ⟨some 5, -1⟩ 0 = none ∧
    parse strTwoDots = none ∧ parse strAbc = none := by
  decide

/-! ### C6: division by a zero significand yields exact zero -/

/-- C6: with a zero divisor significand, `Quo` (and `Div`) return exact zero
with exponent `0`, with no fault. -/
theorem c6_quo_zero_divisor (x y : Decimal) (M : ℕ) (h : intOf y = 0) :
    quo x y M = ⟨some 0, 0⟩ ∧ div x y M = ⟨some 0, 0⟩ := by
  have h2 : y.integer.getD 0 = 0 := h
  have hq : quo x y M = ⟨some 0, 0⟩ := by
    simp [quo, intOf, ensureInitialized, h2]
  exact ⟨hq, hq⟩

/-- Witness for C6 at a concrete input. -/
theorem c6_quo_zero_divisor_witness :
    intOf ⟨some 0, 5⟩ = 0 ∧ quo ⟨some 7, 1⟩ ⟨some 0, 5⟩ 200 = ⟨some 0, 0⟩ := by
  exact ⟨by decide, (c6_quo_zero_divisor ⟨some 7, 1⟩ ⟨some 0, 5⟩ 200 (by decide)).1⟩

/-! ### C9: a failed `SetString` leaves the receiver unchanged -/

/-- C9: when `SetString` reports failure the receiver keeps its previous
significand and exponent (a nil significand having only been lazily
initialized to zero). -/
theorem c9_setString_failure_preserves (x : Decimal) (y : String)
    (h : (setString x y).2 = false) :
    (setString x y).1.integer = some (x.integer.getD 0) ∧
    (setString x y).1.exponent = x.exponent := by
  cases hm : matchDecimal y.data with
  | none => simp [setString, hm, ensureInitialized]
  | some m =>
    exfalso
    obtain ⟨m1, m3, m5⟩ := m
    simp [setString, hm] at h

/-- Witness for C9 at a concrete input. -/
theorem c9_setString_failure_preserves_witness :
    (setString ⟨some 7, 3⟩ strAbc).2 = false ∧
    (setString ⟨some 7, 3⟩ strAbc).1.integer = some 7 ∧
    (setString ⟨some 7, 3⟩ strAbc).1.exponent = 3 := by
  have h := c9_setString_failure_preserves ⟨some 7, 3⟩ strAbc (by decide)
  exact ⟨by decide, h.1, h.2⟩

/-! ### C10: `SetFloat64` on non-finite floats silently keeps the old value -/

/-- C10: Go formats a non-finite float as `"NaN"`, `"+Inf"` or `"-Inf"`
(modelled from the documented `strconv.FormatFloat` output); none of these
matches the decimal grammar, the parse failure is discarded, the receiver
keeps its prior value, and `New` on such a float returns a zero decimal
with no fault. -/
theorem c10_setFloat64_nonfinite (x : Decimal) (s : String)
    (h : s = strNaN ∨ s = strPlusInf ∨ s = strNegInf) :
    setFloat64Str x s = ensureInitialized x ∧
    newFromFloatStr s = ⟨some 0, 0⟩ ∧ val (newFromFloatStr s) = 0 := by
  have hz : val (⟨some 0, 0⟩ : Decimal) = 0 := by
    simp [val, intOf]
  rcases h with rfl | rfl | rfl <;>
    refine ⟨?_, by decide, by rw [show newFromFloatStr _ = ⟨some 0, 0⟩ by decide]; exact hz⟩ <;>
    · rw [setFloat64Str, setString_of_nomatch _ _ (by decide)]

/-- Witness for C10 at a concrete input. -/
theorem c10_setFloat64_nonfinite_witness :
    setFloat64Str ⟨some 7, 3⟩ strNaN = ensureInitialized ⟨some 7, 3⟩ ∧
    newFromFloatStr strNaN = ⟨some 0, 0⟩ := by
  have h := c10_setFloat64_nonfinite ⟨some 7, 3⟩ strNaN (Or.inl rfl)
  exact ⟨h.1, h.2.1⟩

/-! ### C8: the exact-division round-trip -/

lemma mul_eq_of_arg_ne_zero (x y : Decimal) (h : intOf y ≠ 0) :
    mul x y = ⟨some (intOf x * intOf y), x.exponent + y.exponent⟩ := by
  have h2 : ¬y.integer.getD 0 = 0 := h
  simp [mul, intOf, ensureInitialized, h2]

lemma quo_eq_of_exact (a b : Decimal) (M : ℕ) (hb : intOf b ≠ 0)
    (htm : Int.tmod (intOf a) (intOf b) = 0) :
    quo a b M = ⟨some (Int.tdiv (intOf a) (intOf b)), a.exponent - b.exponent⟩ := by
  have hb2 : ¬b.integer.getD 0 = 0 := hb
  have htm2 : (a.integer.getD 0).tmod (b.integer.getD 0) = 0 := htm
  simp [quo, intOf, ensureInitialized, hb2, htm2]

/-- C8 counterexample: with `a = (1, -201)`, `b = (2, 0)` and
`q = (5, -202)` we have `b ≠ 0` and `a` numerically equal to `q.Mul(b)`,
yet `a.Quo(b)` under the default digit ceiling is truncated to zero (the
running exponent already starts beyond the ceiling), so it is neither
`Cmp`-equal nor numerically equal to `q`. -/
theorem c8_counterexample :
    intOf ⟨some 2, 0⟩ ≠ 0 ∧
    val ⟨some 1, -201⟩ = val (mul ⟨some 5, -202⟩ ⟨some 2, 0⟩) ∧
    Decimal.cmp (quo ⟨some 1, -201⟩ ⟨some 2, 0⟩ maxDecimalDigitsDefault) ⟨some 5, -202⟩ ≠ 0 ∧
    val (quo ⟨some 1, -201⟩ ⟨some 2, 0⟩ maxDecimalDigitsDefault) ≠ val ⟨some 5, -202⟩ := by
  refine ⟨by decide, ?_, by decide, ?_⟩
  · rw [show mul ⟨some 5, -202⟩ ⟨some 2, 0⟩ = ⟨some 10, -202⟩ from by decide]
    simp only [val, intOf, Option.getD_some]
    rw [show (-201 : ℤ) = 1 + -202 by norm_num, zpow_add₀ (by norm_num : (10:ℚ) ≠ 0)]
    push_cast
    ring
  · rw [show quo ⟨some 1, -201⟩ ⟨some 2, 0⟩ maxDecimalDigitsDefault = ⟨some 0, -201⟩
        from by decide]
    simp only [val, intOf, Option.getD_some]
    have hpos : (0:ℚ) < (5:ℤ) * (10:ℚ) ^ (-202 : ℤ) := by positivity
    simpa using hpos.ne

/-- C8 amended: restricted to divisions whose significand division is exact
(`b`'s significand divides `a`'s, so the digit-ceiling truncation cannot
trigger), and with numeric-value equality in place of `Cmp` (which
misreports equality for mixed-sign exponents): if `b` is nonzero and `a`
equals `q.Mul(b)` in value, then `a.Quo(b)` equals `q` in value. -/
theorem c8_quo_exact_roundtrip (a b q : Decimal) (M : ℕ)
    (hb : intOf b ≠ 0) (hdvd : intOf b ∣ intOf a)
    (hval : val a = val (mul q b)) :
    val (quo a b M) = val q := by
  have h10 : (10:ℚ) ≠ 0 := by norm_num
  have hbQ : (intOf b : ℚ) ≠ 0 := Int.cast_ne_zero.mpr hb
  obtain ⟨k, hk⟩ := hdvd
  rw [quo_eq_of_exact a b M hb (Int.tmod_eq_zero_of_dvd ⟨k, hk⟩),
    mul_eq_of_arg_ne_zero q b hb] at *
  simp only [val, intOf, Option.getD_some] at hval ⊢
  have hk2 : a.integer.getD 0 = b.integer.getD 0 * k := hk
  have hb3 : b.integer.getD 0 ≠ 0 := hb
  rw [hk2, Int.mul_tdiv_cancel_left k hb3]
  rw [hk2] at hval
  push_cast at hval
  rw [zpow_add₀ h10] at hval
  have hbQ2 : ((b.integer.getD 0 : ℤ) : ℚ) ≠ 0 := hbQ
  have key : (k:ℚ) * (10:ℚ) ^ a.exponent =
      ((q.integer.getD 0 : ℤ) : ℚ) * (10:ℚ) ^ q.exponent * (10:ℚ) ^ b.exponent := by
    apply mul_left_cancel₀ hbQ2
    calc ((b.integer.getD 0 : ℤ) : ℚ) * ((k:ℚ) * (10:ℚ) ^ a.exponent)
        = (((b.integer.getD 0 : ℤ) : ℚ) * k) * (10:ℚ) ^ a.exponent := by ring
      _ = ((q.integer.getD 0 : ℤ) : ℚ) * ((b.integer.getD 0 : ℤ) : ℚ) *
            ((10:ℚ) ^ q.exponent * (10:ℚ) ^ b.exponent) := hval
      _ = ((b.integer.getD 0 : ℤ) : ℚ) *
            (((q.integer.getD 0 : ℤ) : ℚ) * (10:ℚ) ^ q.exponent * (10:ℚ) ^ b.exponent) := by
          ring
  rw [zpow_sub₀ h10]
  field_simp
  linear_combination key

/-- Witness for the amended C8 theorem at a concrete exact division. -/
theorem c8_quo_exact_roundtrip_witness :
    val (quo ⟨some 6, 0⟩ ⟨some 2, 0⟩ 200) = val ⟨some 3, 0⟩ :=
  c8_quo_exact_roundtrip ⟨some 6, 0⟩ ⟨some 2, 0⟩ ⟨some 3, 0⟩ 200 (by decide) (by decide)
    (by rw [show mul ⟨some 3, 0⟩ ⟨some 2, 0⟩ = ⟨some 6, 0⟩ from by decide])

/-! ### C7: the long-division digit bound -/

/-- C7 counterexample: dividing `(4, -201)` by `(3, 0)` under the default
ceiling `200` is inexact, yet the result prints `201` digits after the
decimal point (the running exponent starts at `-201`, beyond the ceiling,
so the loop appends nothing and the bound is exceeded). -/
theorem c7_counterexample :
    intOf ⟨some 3, 0⟩ ≠ 0 ∧
    Int.tmod (intOf ⟨some 4, -201⟩) (intOf ⟨some 3, 0⟩) ≠ 0 ∧
    fracDigitCount (quo ⟨some 4, -201⟩ ⟨some 3, 0⟩ maxDecimalDigitsDefault) = 201 ∧
    maxDecimalDigitsDefault < 201 := by
  decide

lemma digitChar_isDigit (m : ℕ) : (digitChar m).isDigit = true := by
  unfold digitChar
  split <;> decide

lemma charToDigit_digitChar (m : ℕ) (h : m < 10) : charToDigit (digitChar m) = m := by
  interval_cases m <;> rfl

lemma isDigit_not_sign {c : Char} (h : c.isDigit = true) : ¬(c = '+' ∨ c = '-') := by
  rintro (rfl | rfl) <;> exact absurd h (by decide)

lemma isDigit_ne_dot {c : Char} (h : c.isDigit = true) : c ≠ '.' := by
  rintro rfl
  exact absurd h (by decide)

lemma natStrF_digits : ∀ fuel n c, c ∈ natStrF fuel n → c.isDigit = true := by
  intro fuel
  induction fuel with
  | zero => intro n c h; simp [natStrF] at h
  | succ fuel ih =>
    intro n c h
    simp only [natStrF] at h
    by_cases hn : n < 10
    · rw [if_pos hn] at h
      simp only [List.mem_singleton] at h
      exact h ▸ digitChar_isDigit n
    · rw [if_neg hn] at h
      rcases List.mem_append.mp h with h1 | h1
      · exact ih _ _ h1
      · simp only [List.mem_singleton] at h1
        exact h1 ▸ digitChar_isDigit _

lemma natStrF_ne_nil (fuel n : ℕ) : natStrF (fuel + 1) n ≠ [] := by
  simp only [natStrF]
  by_cases hn : n < 10
  · rw [if_pos hn]; simp
  · rw [if_neg hn]; simp

lemma natStr_digits (n : ℕ) : ∀ c ∈ natStr n, c.isDigit = true :=
  fun c h => natStrF_digits _ _ c h

lemma natStr_ne_nil (n : ℕ) : natStr n ≠ [] :=
  natStrF_ne_nil n n

lemma digitsToNat_append1 (s : List Char) (c : Char) :
    digitsToNat (s ++ [c]) = 10 * digitsToNat s + charToDigit c := by
  simp [digitsToNat, List.foldl_append]

lemma digitsToNat_natStrF : ∀ fuel n, n < fuel → digitsToNat (natStrF fuel n) = n := by
  intro fuel
  induction fuel with
  | zero => intro n h; exact absurd h (Nat.not_lt_zero n)
  | succ fuel ih =>
    intro n h
    simp only [natStrF]
    by_cases hn : n < 10
    · rw [if_pos hn]
      have : digitsToNat [digitChar n] = charToDigit (digitChar n) := by
        simp [digitsToNat]
      rw [this, charToDigit_digitChar n hn]
    · rw [if_neg hn, digitsToNat_append1,
        ih (n / 10) (by
          have := Nat.div_lt_self (by omega : 0 < n) (by omega : 1 < 10)
          omega),
        charToDigit_digitChar _ (Nat.mod_lt n (by omega))]
      omega

lemma digitsToNat_natStr (n : ℕ) : digitsToNat (natStr n) = n :=
  digitsToNat_natStrF _ _ (Nat.lt_succ_self n)

lemma intStr_ne_nil (e : ℤ) : intStr e ≠ [] := by
  unfold intStr
  by_cases he : e < 0
  · rw [if_pos he]; simp
  · rw [if_neg he]; exact natStr_ne_nil _

lemma strToInt_intStr (e : ℤ) : strToInt (intStr e) = e := by
  unfold intStr
  by_cases he : e < 0
  · rw [if_pos he]
    have h1 : strToInt ('-' :: natStr e.natAbs) = -(digitsToNat (natStr e.natAbs) : ℤ) := rfl
    rw [h1, digitsToNat_natStr]
    omega
  · rw [if_neg he]
    rcases hs : natStr e.natAbs with _ | ⟨c, t⟩
    · exact absurd hs (natStr_ne_nil _)
    · have hc : c.isDigit = true := natStr_digits _ c (hs ▸ List.mem_cons_self c t)
      have hcs := isDigit_not_sign hc
      simp only [strToInt, if_neg (fun h => hcs (Or.inr h)), if_neg (fun h => hcs (Or.inl h))]
      rw [← hs, digitsToNat_natStr]
      omega

lemma takeWhile_append_stop {p : Char → Bool} :
    ∀ (l1 : List Char) (c : Char) (l2 : List Char), (∀ a ∈ l1, p a = true) → p c = false →
      (l1 ++ c :: l2).takeWhile p = l1 ∧ (l1 ++ c :: l2).dropWhile p = c :: l2 := by
  intro l1
  induction l1 with
  | nil =>
    intro c l2 _ hc
    simp [List.takeWhile, List.dropWhile, hc]
  | cons a t ih =>
    intro c l2 h hc
    have ha : p a = true := h a (List.mem_cons_self a t)
    have ht := ih c l2 (fun x hx => h x (List.mem_cons_of_mem a hx)) hc
    simp [List.takeWhile, List.dropWhile, ha, ht.1, ht.2]

lemma takeWhile_all_eq {p : Char → Bool} :
    ∀ (l : List Char), (∀ a ∈ l, p a = true) →
      l.takeWhile p = l ∧ l.dropWhile p = [] := by
  intro l
  induction l with
  | nil => intro _; simp
  | cons a t ih =>
    intro h
    have ha : p a = true := h a (List.mem_cons_self a t)
    have ht := ih (fun x hx => h x (List.mem_cons_of_mem a hx))
    simp [List.takeWhile, List.dropWhile, ha, ht.1, ht.2]

lemma signSplit_digit {c : Char} (t : List Char) (hc : c.isDigit = true) :
    signSplit (c :: t) = ([], c :: t) := by
  simp [signSplit, isDigit_not_sign hc]

lemma signSplit_minus (t : List Char) : signSplit ('-' :: t) = (['-'], t) := by
  simp [signSplit]

lemma signSplit_of_digits (l : List Char) (hne : l ≠ []) (hl : ∀ c ∈ l, c.isDigit = true) :
    signSplit l = ([], l) := by
  rcases l with _ | ⟨c, t⟩
  · exact absurd rfl hne
  · exact signSplit_digit t (hl c (List.mem_cons_self c t))

lemma matchExp_intStr (m1 m3 : List Char) (e : ℤ) :
    matchExp m1 m3 (intStr e) = some (m1, m3, intStr e) := by
  have hall := natStr_digits e.natAbs
  have htw := takeWhile_all_eq (natStr e.natAbs) hall
  unfold intStr
  by_cases he : e < 0
  · rw [if_pos he]
    simp only [matchExp, signSplit_minus, htw.1, htw.2]
    simp [natStr_ne_nil]
  · rw [if_neg he]
    simp only [matchExp, signSplit_of_digits _ (natStr_ne_nil _) hall, htw.1, htw.2]
    simp [natStr_ne_nil]

lemma matchDecimal_expStr (sgn ds : List Char) (e : ℤ)
    (hsgn : sgn = [] ∨ sgn = ['-']) (hne : ds ≠ []) (hds : ∀ c ∈ ds, c.isDigit = true) :
    matchDecimal (sgn ++ (ds ++ 'e' :: intStr e)) = some (sgn ++ ds, [], intStr e) := by
  have hstop := takeWhile_append_stop ds 'e' (intStr e) hds (by decide)
  rcases ds with _ | ⟨c, t⟩
  · exact absurd rfl hne
  · have hc : c.isDigit = true := hds c (List.mem_cons_self c t)
    rcases hsgn with rfl | rfl
    · simp only [List.nil_append, List.cons_append]
      simp only [matchDecimal, List.cons_append] at *
      rw [signSplit_digit _ hc]
      simp only [hstop.1, hstop.2]
      simp [matchExp_intStr]
    · simp only [List.cons_append, List.nil_append]
      simp only [matchDecimal] at *
      rw [signSplit_minus]
      simp only [List.cons_append] at hstop
      simp only [hstop.1, hstop.2]
      simp [matchExp_intStr]

lemma trimRightZeros_nil : trimRightZeros [] = [] := rfl

lemma setString_expStr (x : Decimal) (sgn ds : List Char) (e : ℤ)
    (hsgn : sgn = [] ∨ sgn = ['-']) (hne : ds ≠ []) (hds : ∀ c ∈ ds, c.isDigit = true) :
    setString x (String.mk (sgn ++ (ds ++ 'e' :: intStr e))) =
      (⟨some (strToInt (sgn ++ ds)), e⟩, true) := by
  have hdata : (String.mk (sgn ++ (ds ++ 'e' :: intStr e))).data
      = sgn ++ (ds ++ 'e' :: intStr e) := rfl
  simp only [setString, hdata, matchDecimal_expStr sgn ds e hsgn hne hds,
    trimRightZeros_nil, List.append_nil, List.length_nil]
  simp [intStr_ne_nil, strToInt_intStr]

lemma quoLoopF_exp_le : ∀ (fuel ya r : ℕ) (exp : ℤ) (M : ℕ),
    -(quoLoopF fuel ya r exp M).2.1 ≤ max (M : ℤ) (-exp) := by
  intro fuel
  induction fuel with
  | zero => intro ya r exp M; exact le_max_right _ _
  | succ fuel ih =>
    intro ya r exp M
    simp only [quoLoopF]
    by_cases h : r ≠ 0 ∧ -exp < (M : ℤ)
    · rw [if_pos h]
      have := ih ya (r * 10 % ya) (exp - 1) M
      have hm : max (M : ℤ) (-(exp - 1)) = (M : ℤ) := by
        apply max_eq_left
        omega
      calc -(quoLoopF fuel ya (r * 10 % ya) (exp - 1) M).2.1
          ≤ max (M : ℤ) (-(exp - 1)) := this
        _ = (M : ℤ) := hm
        _ ≤ max (M : ℤ) (-exp) := le_max_left _ _
    · rw [if_neg h]
      exact le_max_right _ _

lemma quoLoopF_exit : ∀ (fuel ya r : ℕ) (exp : ℤ) (M : ℕ),
    ((M : ℤ) + exp).toNat ≤ fuel →
    (quoLoopF fuel ya r exp M).2.2 = 0 ∨ (M : ℤ) ≤ -(quoLoopF fuel ya r exp M).2.1 := by
  intro fuel
  induction fuel with
  | zero =>
    intro ya r exp M hf
    right
    show (M : ℤ) ≤ -exp
    omega
  | succ fuel ih =>
    intro ya r exp M hf
    simp only [quoLoopF]
    by_cases h : r ≠ 0 ∧ -exp < (M : ℤ)
    · rw [if_pos h]
      exact ih ya (r * 10 % ya) (exp - 1) M (by omega)
    · rw [if_neg h]
      push_neg at h
      by_cases hr : r = 0
      · exact Or.inl hr
      · refine Or.inr ?_
        show (M : ℤ) ≤ -exp
        have h2 := h hr
        omega

lemma quoLoopF_digits : ∀ (fuel ya r : ℕ) (exp : ℤ) (M : ℕ),
    ∀ c ∈ (quoLoopF fuel ya r exp M).1, c.isDigit = true := by
  intro fuel
  induction fuel with
  | zero => intro ya r exp M c h; simp [quoLoopF] at h
  | succ fuel ih =>
    intro ya r exp M c h
    simp only [quoLoopF] at h
    by_cases hc : r ≠ 0 ∧ -exp < (M : ℤ)
    · rw [if_pos hc] at h
      rcases List.mem_append.mp h with h1 | h1
      · exact natStr_digits _ c h1
      · exact ih _ _ _ _ c h1
    · rw [if_neg hc] at h
      simp at h

lemma quoLoop_exp_le (ya r : ℕ) (exp : ℤ) (M : ℕ) :
    -(quoLoop ya r exp M).2.1 ≤ max (M : ℤ) (-exp) :=
  quoLoopF_exp_le _ ya r exp M

lemma quoLoop_exit (ya r : ℕ) (exp : ℤ) (M : ℕ) :
    (quoLoop ya r exp M).2.2 = 0 ∨ (M : ℤ) ≤ -(quoLoop ya r exp M).2.1 :=
  quoLoopF_exit _ ya r exp M le_rfl

lemma quoLoop_digits (ya r : ℕ) (exp : ℤ) (M : ℕ) :
    ∀ c ∈ (quoLoop ya r exp M).1, c.isDigit = true :=
  quoLoopF_digits _ ya r exp M

lemma quo_inexact (x y : Decimal) (M : ℕ) (hy : intOf y ≠ 0)
    (htm : Int.tmod (intOf x) (intOf y) ≠ 0) :
    quo x y M =
      ⟨some (strToInt
          ((if Int.sign (intOf x) * Int.sign (intOf y) = -1 then ['-'] else []) ++
            (natStr ((intOf x).natAbs / (intOf y).natAbs) ++
              (quoLoop (intOf y).natAbs ((intOf x).natAbs % (intOf y).natAbs)
                (x.exponent - y.exponent) M).1))),
        (quoLoop (intOf y).natAbs ((intOf x).natAbs % (intOf y).natAbs)
          (x.exponent - y.exponent) M).2.1⟩ := by
  have hy2 : ¬y.integer.getD 0 = 0 := hy
  have htm2 : ¬(x.integer.getD 0).tmod (y.integer.getD 0) = 0 := htm
  have hsgn : (if Int.sign (x.integer.getD 0) * Int.sign (y.integer.getD 0) = -1
      then (['-'] : List Char) else []) = [] ∨
      (if Int.sign (x.integer.getD 0) * Int.sign (y.integer.getD 0) = -1
      then (['-'] : List Char) else []) = ['-'] := by
    split
    · exact Or.inr rfl
    · exact Or.inl rfl
  have hne : natStr ((x.integer.getD 0).natAbs / (y.integer.getD 0).natAbs) ++
      (quoLoop (y.integer.getD 0).natAbs
        ((x.integer.getD 0).natAbs % (y.integer.getD 0).natAbs)
        (x.exponent - y.exponent) M).1 ≠ [] := by
    intro h
    exact natStr_ne_nil _ (List.append_eq_nil.mp h).1
  have hds : ∀ c ∈ natStr ((x.integer.getD 0).natAbs / (y.integer.getD 0).natAbs) ++
      (quoLoop (y.integer.getD 0).natAbs
        ((x.integer.getD 0).natAbs % (y.integer.getD 0).natAbs)
        (x.exponent - y.exponent) M).1, c.isDigit = true := by
    intro c hc
    rcases List.mem_append.mp hc with h1 | h1
    · exact natStr_digits _ c h1
    · exact quoLoop_digits _ _ _ _ c h1
  simp only [quo, intOf, ensureInitialized, Option.getD_some]
  rw [if_neg hy2, if_neg htm2]
  rw [setString_expStr _ _ _ _ hsgn hne hds]

lemma trimRightZeros_length_le (s : List Char) :
    (trimRightZeros s).length ≤ s.length := by
  unfold trimRightZeros
  calc ((s.reverse.dropWhile (fun c => c = '0')).reverse).length
      = (s.reverse.dropWhile (fun c => c = '0')).length := by simp
    _ ≤ s.reverse.length := (List.dropWhile_sublist _).length_le
    _ = s.length := by simp

lemma trimRightZeros_subset (s : List Char) :
    ∀ c ∈ trimRightZeros s, c ∈ s := by
  intro c h
  unfold trimRightZeros at h
  rw [List.mem_reverse] at h
  have := (List.dropWhile_sublist (fun c => c = '0') (l := s.reverse)).subset h
  rwa [List.mem_reverse] at this

lemma notDot_eq_true {c : Char} (h : c ≠ '.') : notDot c = true := by
  simp [notDot, h]

lemma notDot_dot : notDot '.' = false := by
  simp [notDot]

lemma dropWhile_dot_nil (l : List Char) (h : ∀ c ∈ l, c ≠ '.') :
    l.dropWhile notDot = [] := by
  exact List.dropWhile_eq_nil_iff.mpr fun x hx => notDot_eq_true (h x hx)

lemma dropWhile_dot_append (l1 l2 : List Char) (h : ∀ c ∈ l1, c ≠ '.') :
    (l1 ++ '.' :: l2).dropWhile notDot = '.' :: l2 := by
  induction l1 with
  | nil => simp [List.dropWhile_cons, notDot_dot]
  | cons a t ih =>
    have ha : a ≠ '.' := h a (List.mem_cons_self a t)
    have ht := ih (fun x hx => h x (List.mem_cons_of_mem a hx))
    simp [List.dropWhile_cons, notDot_eq_true ha, ht]

lemma fracDigitCount_of_no_dot (d : Decimal) (h : ∀ c ∈ decimalString d, c ≠ '.') :
    fracDigitCount d = 0 := by
  simp [fracDigitCount, dropWhile_dot_nil _ h]

lemma fracDigitCount_of_split (d : Decimal) (l1 l2 : List Char)
    (hsplit : decimalString d = l1 ++ '.' :: l2) (h1 : ∀ c ∈ l1, c ≠ '.') :
    fracDigitCount d = l2.length := by
  simp [fracDigitCount, hsplit, dropWhile_dot_append l1 l2 h1]

lemma fracDigitCount_le (d : Decimal) : (fracDigitCount d : ℤ) ≤ max 0 (-d.exponent) := by
  have hmax0 : (0 : ℤ) ≤ max 0 (-d.exponent) := le_max_left _ _
  have hsgn : ∀ c ∈ (if intOf d < 0 then (['-'] : List Char) else []), c ≠ '.' := by
    split
    · intro c hc
      simp only [List.mem_singleton] at hc
      subst hc; decide
    · intro c hc
      simp at hc
  have hdig : ∀ c ∈ natStr (intOf d).natAbs, c ≠ '.' :=
    fun c hc => isDigit_ne_dot (natStr_digits _ c hc)
  by_cases h0 : intOf d = 0
  · rw [fracDigitCount_of_no_dot d (by
      intro c hc
      simp only [decimalString, if_pos h0, List.mem_singleton] at hc
      subst hc; decide)]
    simp
  by_cases he0 : d.exponent = 0
  · rw [fracDigitCount_of_no_dot d (by
      intro c hc
      simp only [decimalString, if_neg h0, if_pos he0] at hc
      rcases List.mem_append.mp hc with h | h
      · exact hsgn c h
      · exact hdig c h)]
    simp
  by_cases hep : 0 < d.exponent
  · rw [fracDigitCount_of_no_dot d (by
      intro c hc
      simp only [decimalString, if_neg h0, if_neg he0, if_pos hep] at hc
      rcases List.mem_append.mp hc with h | h
      · rcases List.mem_append.mp h with h1 | h1
        · exact hsgn c h1
        · exact hdig c h1
      · rw [List.eq_of_mem_replicate h]
        decide)]
    simp
  have hen : d.exponent < 0 := by omega
  have hmaxr : max 0 (-d.exponent) = -d.exponent := max_eq_right (by omega)
  by_cases hple : ((natStr (intOf d).natAbs).length : ℤ) + d.exponent ≤ 0
  · have hsplit : decimalString d =
        ((if intOf d < 0 then (['-'] : List Char) else []) ++ ['0']) ++
          '.' :: (List.replicate
              (-(((natStr (intOf d).natAbs).length : ℤ) + d.exponent)).toNat '0' ++
            trimRightZeros (natStr (intOf d).natAbs)) := by
      simp only [decimalString, if_neg h0, if_neg he0, if_neg hep, if_pos hple]
      simp
    rw [fracDigitCount_of_split d _ _ hsplit (by
      intro c hc
      rcases List.mem_append.mp hc with h | h
      · exact hsgn c h
      · simp only [List.mem_singleton] at h
        subst h; decide)]
    have h1 : (trimRightZeros (natStr (intOf d).natAbs)).length ≤
        (natStr (intOf d).natAbs).length := trimRightZeros_length_le _
    rw [hmaxr]
    simp only [List.length_append, List.length_replicate]
    push_cast
    omega
  · push_neg at hple
    by_cases hdnil : trimRightZeros ((natStr (intOf d).natAbs).drop
        (((natStr (intOf d).natAbs).length : ℤ) + d.exponent).toNat) = []
    · rw [fracDigitCount_of_no_dot d (by
        intro c hc
        simp only [decimalString, if_neg h0, if_neg he0, if_neg hep,
          if_neg (by omega : ¬((natStr (intOf d).natAbs).length : ℤ) + d.exponent ≤ 0),
          if_pos hdnil, List.append_nil] at hc
        rcases List.mem_append.mp hc with h | h
        · exact hsgn c h
        · exact hdig c (List.take_subset _ _ h))]
      simp
    · have hsplit : decimalString d =
          ((if intOf d < 0 then (['-'] : List Char) else []) ++
            (natStr (intOf d).natAbs).take
              (((natStr (intOf d).natAbs).length : ℤ) + d.exponent).toNat) ++
            '.' :: trimRightZeros ((natStr (intOf d).natAbs).drop
              (((natStr (intOf d).natAbs).length : ℤ) + d.exponent).toNat) := by
        simp only [decimalString, if_neg h0, if_neg he0, if_neg hep,
          if_neg (by omega : ¬((natStr (intOf d).natAbs).length : ℤ) + d.exponent ≤ 0),
          if_neg hdnil]
      rw [fracDigitCount_of_split d _ _ hsplit (by
        intro c hc
        rcases List.mem_append.mp hc with h | h
        · exact hsgn c h
        · exact hdig c (List.take_subset _ _ h))]
      have h1 : (trimRightZeros ((natStr (intOf d).natAbs).drop
          (((natStr (intOf d).natAbs).length : ℤ) + d.exponent).toNat)).length ≤
          ((natStr (intOf d).natAbs).drop
            (((natStr (intOf d).natAbs).length : ℤ) + d.exponent).toNat).length :=
        trimRightZeros_length_le _
      rw [List.length_drop] at h1
      rw [hmaxr]
      omega

/-- C7 amended: the loop exits with remainder zero or with the magnitude of
the running exponent (which starts at `x.exponent - y.exponent`, not at
zero) at least `MaxDecimalDigits`; consequently the printed digit count
after the decimal point is bounded by
`max MaxDecimalDigits (y.exponent - x.exponent)` rather than by
`MaxDecimalDigits` alone.  (Termination itself is witnessed by the loop
being realized with sufficient finite fuel.) -/
theorem c7_quo_digit_bound (x y : Decimal) (M : ℕ)
    (hy : intOf y ≠ 0) (htm : Int.tmod (intOf x) (intOf y) ≠ 0) :
    ((quoLoop (intOf y).natAbs ((intOf x).natAbs % (intOf y).natAbs)
        (x.exponent - y.exponent) M).2.2 = 0 ∨
      (M : ℤ) ≤ -(quoLoop (intOf y).natAbs ((intOf x).natAbs % (intOf y).natAbs)
        (x.exponent - y.exponent) M).2.1) ∧
    (fracDigitCount (quo x y M) : ℤ) ≤ max (M : ℤ) (y.exponent - x.exponent) := by
  refine ⟨quoLoop_exit _ _ _ _, ?_⟩
  rw [quo_inexact x y M hy htm]
  have h1 := fracDigitCount_le ⟨some (strToInt
      ((if Int.sign (intOf x) * Int.sign (intOf y) = -1 then ['-'] else []) ++
        (natStr ((intOf x).natAbs / (intOf y).natAbs) ++
          (quoLoop (intOf y).natAbs ((intOf x).natAbs % (intOf y).natAbs)
            (x.exponent - y.exponent) M).1))),
    (quoLoop (intOf y).natAbs ((intOf x).natAbs % (intOf y).natAbs)
      (x.exponent - y.exponent) M).2.1⟩
  have h2 := quoLoop_exp_le (intOf y).natAbs
    ((intOf x).natAbs % (intOf y).natAbs) (x.exponent - y.exponent) M
  rw [neg_sub] at h2
  refine le_trans h1 (max_le ?_ ?_)
  · exact le_trans (Int.natCast_nonneg M) (le_max_left _ _)
  · exact le_trans h2 le_rfl

/-- Witness for the amended C7 theorem at a concrete inexact division. -/
theorem c7_quo_digit_bound_witness :
    (fracDigitCount (quo ⟨some 1, 0⟩ ⟨some 3, 0⟩ 3) : ℤ) ≤
      max ((3 : ℕ) : ℤ) ((0 : ℤ) - 0) :=
  (c7_quo_digit_bound ⟨some 1, 0⟩ ⟨some 3, 0⟩ 3 (by decide) (by decide)).2
